import Mathlib

/-!
Verification of the Bhindi_mem knowledge-graph core (graph_manager.py,
crud_executor.py, memory_retriever.py, config.py) against its
natural-language specification.

The Python code is shallowly embedded: Python dicts become association
lists (`Dict`), property values become `Value` (a string, or a flat
string-keyed map — the code never inspects deeper structure), floats used
only for confidence comparisons become rationals, and the Neo4j-backed
branches are modelled by the query text / parameter pairs they construct
together with an abstract graph (`Graph`) giving the Cypher queries their
documented semantics.  Python string primitives (`lower`, `split`,
`strip`, `CONTAINS`) are re-implemented structurally so that every
definition evaluates by kernel reduction.
-/

/-- A Python value as used by this code base: a string, or a flat
string-keyed mapping (the code only ever tests such values for equality
and truthiness, never their inner structure). -/
inductive Value where
  | str (s : String)
  | vdict (entries : List (String × String))
deriving DecidableEq

/-- A Python `dict` with string keys: an insertion-ordered association list. -/
abbrev Dict := List (String × Value)

/-- `d.get(k)`: the value of the first (= only, for genuine dicts) binding of `k`. -/
def dictGet (d : Dict) (k : String) : Option Value :=
  (d.find? (fun p => decide (p.1 = k))).map (fun p => p.2)

/-- `d[k] = v` on an insertion-ordered dict: overwrite in place if the key is
present, append otherwise. -/
def dictInsert (d : Dict) (k : String) (v : Value) : Dict :=
  if d.any (fun p => decide (p.1 = k)) then
    d.map (fun p => if p.1 = k then (k, v) else p)
  else d ++ [(k, v)]

/-- `d.update(kvs)` / building a dict literal: insert the pairs left to right. -/
def dictInsertMany (d : Dict) (kvs : List (String × Value)) : Dict :=
  kvs.foldl (fun acc p => dictInsert acc p.1 p.2) d

/-- The value the last binding of `k` in a pair list would give it
(the value a Python dict literal built from these pairs assigns to `k`). -/
def lookupLast (kvs : List (String × Value)) (k : String) : Option Value :=
  match kvs with
  | [] => none
  | (k', v) :: rest =>
    match lookupLast rest k with
    | some v' => some v'
    | none => if k' = k then some v else none

/-- Python truthiness for the values this code tests (`if identifier`,
`if existing`): empty string and empty dict are falsy. -/
def truthy : Value → Bool
  | .str s => decide (s ≠ "")
  | .vdict d => decide (d ≠ [])

/-- `str.lower()` (ASCII, which is all this code base uses). -/
def py_lower (s : String) : String := String.mk (s.data.map Char.toLower)

def splitWsAux : List Char → List Char → List (List Char)
  | [], acc => [acc.reverse]
  | c :: cs, acc =>
    if c.isWhitespace then acc.reverse :: splitWsAux cs [] else splitWsAux cs (c :: acc)

/-- `str.split()` with no argument: split on whitespace runs, dropping empty pieces. -/
def py_split_ws (s : String) : List String :=
  ((splitWsAux s.data []).map String.mk).filter (fun w => w ≠ "")

/-- `str.strip()` / `str.strip(chars)`: remove the given characters from both ends. -/
def py_strip_list (p : Char → Bool) (s : String) : String :=
  String.mk (((s.data.dropWhile p).reverse.dropWhile p).reverse)

def py_strip_ws (s : String) : String := py_strip_list Char.isWhitespace s

def subPrefix : List Char → List Char → Bool
  | [], _ => true
  | _ :: _, [] => false
  | a :: as, b :: bs => decide (a = b) && subPrefix as bs

def subAnywhere : List Char → List Char → Bool
  | needle, [] => needle.isEmpty
  | needle, c :: t => subPrefix needle (c :: t) || subAnywhere needle t

/-- Cypher `a CONTAINS b` / Python `b in a`: substring test. -/
def strContainsSub (hay needle : String) : Bool := subAnywhere needle.data hay.data

def charListLe : List Char → List Char → Bool
  | [], _ => true
  | _ :: _, [] => false
  | a :: as, b :: bs => if a = b then charListLe as bs else decide (a < b)

/-- Lexicographic string order, used to model the backend's `ORDER BY n.name`. -/
def strLe (a b : String) : Bool := charListLe a.data b.data

/-- Insertion sort, modelling the backend's `ORDER BY` (the claims under
verification do not depend on which correct sort the backend uses). -/
def insertSorted {α : Type} (le : α → α → Bool) (x : α) : List α → List α
  | [] => [x]
  | y :: ys => if le x y then x :: y :: ys else y :: insertSorted le x ys

def sortByKey {α : Type} (le : α → α → Bool) (l : List α) : List α :=
  l.foldr (insertSorted le) []

/-! ## config.py -/

/-- config.py: the fixed relationship-type list.  It is imported by
graph_manager.py but — as proved below — never consulted there. -/
def RELATIONSHIP_TYPES : List String :=
  ["KNOWS", "LIKES", "DISLIKES", "WORKS_AT", "LIVES_IN",
   "ATTENDED", "SKILLED_IN", "WANTS_TO", "REMEMBERS",
   "RELATED_TO", "PART_OF", "CREATED", "LEARNED"]

/-- config.py: node colours for visualization. -/
def NODE_COLORS : List (String × String) :=
  [("Person", "#FF6B6B"), ("Concept", "#4ECDC4"), ("Event", "#45B7D1"),
   ("Preference", "#96CEB4"), ("Location", "#FFEAA7"), ("Organization", "#DDA0DD"),
   ("Skill", "#98D8C8"), ("Goal", "#F7DC6F"), ("Memory", "#BB8FCE"),
   ("Default", "#BDC3C7")]

def nodeColorFor (t : String) : String :=
  match NODE_COLORS.find? (fun p => decide (p.1 = t)) with
  | some p => p.2
  | none => "#BDC3C7"

/-! ## graph_manager.py — fallback ("demo") mode

When the Neo4j driver cannot connect, `GraphManager` keeps
`self._demo_nodes : List Dict` and `self._demo_relationships` in memory and
every method takes its `if not self.driver:` branch.  Those branches are
embedded here, one definition per method. -/

/-- The in-memory state of a `GraphManager` running in demo mode. -/
structure DemoState where
  demo_nodes : List Dict
  demo_relationships : List Dict
deriving DecidableEq

/-- The dict literal `{'type': node_type, **properties, 'updated_at': 'demo_timestamp'}`. -/
def demoUpdateLiteral (node_type : String) (properties : Dict) : Dict :=
  dictInsertMany [] ([("type", Value.str node_type)] ++ properties
    ++ [("updated_at", Value.str "demo_timestamp")])

/-- The dict literal `{'name': name, 'type': node_type, **properties, 'created_at': ...}`. -/
def demoCreateLiteral (name node_type : String) (properties : Dict) : Dict :=
  dictInsertMany [] ([("name", Value.str name), ("type", Value.str node_type)] ++ properties
    ++ [("created_at", Value.str "demo_timestamp")])

/-- graph_manager.py `_demo_create_or_update_node`: scan for the first node whose
`name` entry equals `name`; update it in place if found, append a new node
otherwise.  Returns `True` either way. -/
def _demo_create_or_update_node (nodes : List Dict) (name node_type : String)
    (properties : Dict) : Bool × List Dict :=
  match nodes with
  | [] => (true, [demoCreateLiteral name node_type properties])
  | n :: rest =>
    if dictGet n "name" = some (Value.str name) then
      (true, dictInsertMany n (demoUpdateLiteral node_type properties) :: rest)
    else
      let r := _demo_create_or_update_node rest name node_type properties
      (r.1, n :: r.2)

/-- graph_manager.py `create_or_update_node`, demo branch: delegates. -/
def create_or_update_node_demo (s : DemoState) (name node_type : String)
    (properties : Dict) : Bool × DemoState :=
  let r := _demo_create_or_update_node s.demo_nodes name node_type properties
  (r.1, { s with demo_nodes := r.2 })

/-- graph_manager.py `create_relationship`, demo branch: logs
"No database connection" and returns `False`; the state is untouched. -/
def create_relationship_demo (s : DemoState) (_from_node _to_node _rel_type : String)
    (_properties : Dict) : Bool × DemoState :=
  (false, s)

/-- graph_manager.py `get_node`, demo branch: returns `None`. -/
def get_node_demo (_s : DemoState) (_name : String) : Option Dict := none

/-- graph_manager.py `get_node_with_relationships`, demo branch: returns `None`. -/
def get_node_with_relationships_demo (_s : DemoState) (_name : String) : Option Dict := none

/-- graph_manager.py `get_all_nodes`, demo branch: returns `[]`. -/
def get_all_nodes_demo (_s : DemoState) : List Dict := []

/-- graph_manager.py `get_nodes_by_type`, demo branch: returns `[]`. -/
def get_nodes_by_type_demo (_s : DemoState) (_node_type : String) : List Dict := []

/-- graph_manager.py `search_nodes_by_name`, demo branch: returns `[]`. -/
def search_nodes_by_name_demo (_s : DemoState) (_search_term : String) : List Dict := []

/-- graph_manager.py `get_node_relationships`, demo branch: returns `[]`. -/
def get_node_relationships_demo (_s : DemoState) (_name : String) : List Dict := []

/-- graph_manager.py `update_node_properties`, demo branch: returns `False`. -/
def update_node_properties_demo (s : DemoState) (_name : String) (_properties : Dict) :
    Bool × DemoState := (false, s)

/-- graph_manager.py `delete_node`, demo branch: returns `False`. -/
def delete_node_demo (s : DemoState) (_name : String) : Bool × DemoState := (false, s)

/-- graph_manager.py `delete_relationship`, demo branch: returns `False`. -/
def delete_relationship_demo (s : DemoState) (_from_node _to_node _rel_type : String) :
    Bool × DemoState := (false, s)

/-- The result shape of `get_graph_statistics`. -/
structure GraphStatistics where
  nodes : Nat
  relationships : Nat
  node_types : List (Value × Nat)
  relationship_types : List (Value × Nat)
deriving DecidableEq

/-- `counts[k] = counts.get(k, 0) + 1` on an insertion-ordered counting dict. -/
def bumpCount (acc : List (Value × Nat)) (k : Value) : List (Value × Nat) :=
  if acc.any (fun p => decide (p.1 = k)) then
    acc.map (fun p => if p.1 = k then (p.1, p.2 + 1) else p)
  else acc ++ [(k, 1)]

/-- The demo-statistics loop: count nodes by `node.get('type', 'Unknown')`. -/
def countNodeTypes (nodes : List Dict) : List (Value × Nat) :=
  nodes.foldl (fun acc n => bumpCount acc ((dictGet n "type").getD (Value.str "Unknown"))) []

/-- graph_manager.py `get_graph_statistics`, demo branch. -/
def get_graph_statistics_demo (s : DemoState) : GraphStatistics :=
  { nodes := s.demo_nodes.length
    relationships := s.demo_relationships.length
    node_types := countNodeTypes s.demo_nodes
    relationship_types := [] }

/-- The result shape of `get_graph_data_for_visualization`. -/
structure VizData where
  nodes : List Dict
  edges : List Dict
  total_nodes : Nat
  total_edges : Nat
deriving DecidableEq

/-- graph_manager.py `get_graph_data_for_visualization`, demo branch. -/
def get_graph_data_for_visualization_demo (s : DemoState) : VizData :=
  let nodes := s.demo_nodes.map (fun n =>
    [("id", (dictGet n "name").getD (Value.str "Unknown")),
     ("label", (dictGet n "name").getD (Value.str "Unknown")),
     ("type", (dictGet n "type").getD (Value.str "Default")),
     ("color", Value.str (nodeColorFor (match dictGet n "type" with
        | some (Value.str t) => t
        | _ => "Default"))),
     ("properties", Value.vdict ((n.filterMap (fun p =>
        if p.1 = "name" ∨ p.1 = "type" then none
        else match p.2 with
          | Value.str v => some (p.1, v)
          | Value.vdict _ => none))))])
  { nodes := nodes
    edges := s.demo_relationships
    total_nodes := nodes.length
    total_edges := s.demo_relationships.length }

/-- One call against a demo-mode `GraphManager` that could, in principle,
mutate its in-memory state. -/
inductive DemoOp where
  | create_node (name node_type : String) (properties : Dict)
  | create_rel (from_node to_node rel_type : String) (properties : Dict)
  | update_props (name : String) (properties : Dict)
  | del_node (name : String)
  | del_rel (from_node to_node rel_type : String)

/-- State transition of a demo-mode `GraphManager` under one call
(each case is the corresponding method's demo branch). -/
def demo_step (s : DemoState) : DemoOp → DemoState
  | .create_node n t p => (create_or_update_node_demo s n t p).2
  | .create_rel f t r p => (create_relationship_demo s f t r p).2
  | .update_props n p => (update_node_properties_demo s n p).2
  | .del_node n => (delete_node_demo s n).2
  | .del_rel f t r => (delete_relationship_demo s f t r).2

/-- A fresh demo-mode `GraphManager` (`connect` failed: both lists empty)
after an arbitrary sequence of calls. -/
def demo_run (ops : List DemoOp) : DemoState :=
  ops.foldl demo_step { demo_nodes := [], demo_relationships := [] }

/-! ## graph_manager.py — backend-connected relationship queries

`create_relationship` and `delete_relationship` build their Cypher text with
Python `%`-interpolation of `rel_type` (`MERGE (a)-[r:%s]->(b)` and
`MATCH (a ...)-[r:%s]->(b ...)`); the parameters dict carries only the node
names and properties.  The pair (query text, parameters) each call hands to
`session.run` is embedded verbatim. -/

def create_relationship_query_pre : String :=
  "\n                MATCH (a \x7bname: $from_node\x7d)\n                MATCH (b \x7bname: $to_node\x7d)\n                MERGE (a)-[r:"

def create_relationship_query_post : String :=
  "]->(b)\n                SET r += $properties\n                SET r.created_at = datetime()\n                RETURN r\n                "

/-- The Cypher text `create_relationship` builds: `rel_type` is spliced in
by `%`-formatting, with no validation of any kind. -/
def create_relationship_query (rel_type : String) : String :=
  create_relationship_query_pre ++ rel_type ++ create_relationship_query_post

/-- graph_manager.py `create_relationship`, backend branch: the (query,
parameters) pair passed to `session.run`. -/
def create_relationship_backend_call (from_node to_node rel_type : String)
    (properties : Dict) : String × Dict :=
  (create_relationship_query rel_type,
   [("from_node", Value.str from_node), ("to_node", Value.str to_node),
    ("properties", Value.vdict (properties.filterMap (fun p =>
      match p.2 with | Value.str v => some (p.1, v) | Value.vdict _ => none)))])

def delete_relationship_query_pre : String :=
  "\n                MATCH (a \x7bname: $from_node\x7d)-[r:"

def delete_relationship_query_post : String :=
  "]->(b \x7bname: $to_node\x7d)\n                DELETE r\n                "

/-- The Cypher text `delete_relationship` builds, again by `%`-splicing. -/
def delete_relationship_query (rel_type : String) : String :=
  delete_relationship_query_pre ++ rel_type ++ delete_relationship_query_post

/-- graph_manager.py `delete_relationship`, backend branch: the (query,
parameters) pair passed to `session.run`. -/
def delete_relationship_backend_call (from_node to_node rel_type : String) : String × Dict :=
  (delete_relationship_query rel_type,
   [("from_node", Value.str from_node), ("to_node", Value.str to_node)])

/-! ## Backend-connected graph semantics

The retriever-level claims quantify over the stored graph.  A
backend-connected store is modelled as the property graph the Cypher
queries range over: a node list (dicts, as `dict(node)` returns them) and a
directed edge list.  Each read query of graph_manager.py is given its
documented Cypher semantics over this structure. -/

/-- A directed, typed edge of the stored property graph. -/
structure Edge where
  src : String
  tgt : String
  typ : String
  props : List (String × String)
deriving DecidableEq

/-- A backend-connected store's graph. -/
structure Graph where
  nodes : List Dict
  edges : List Edge
deriving DecidableEq

def nodeName (n : Dict) : String :=
  match dictGet n "name" with
  | some (Value.str s) => s
  | _ => ""

/-- graph_manager.py `search_nodes_by_name`, backend branch:
`WHERE toLower(n.name) CONTAINS toLower($search_term) ... ORDER BY n.name LIMIT 20`. -/
def search_nodes_by_name (g : Graph) (search_term : String) : List Dict :=
  (sortByKey (fun a b => strLe (nodeName a) (nodeName b))
    (g.nodes.filter (fun n => strContainsSub (py_lower (nodeName n)) (py_lower search_term)))).take 20

def nodeTypeValueOf (g : Graph) (name : String) : Value :=
  match g.nodes.find? (fun n => decide (dictGet n "name" = some (Value.str name))) with
  | some n => (dictGet n "type").getD (Value.str "")
  | none => Value.str ""

/-- One record of `get_node_relationships`' result: the dict
`{"type": ..., "properties": ..., "target_name": ..., "target_type": ..., "direction": ...}`.
(Note: there is no `"id"` key.) -/
def relRecord (g : Graph) (typ : String) (props : List (String × String))
    (target direction : String) : Dict :=
  [("type", Value.str typ), ("properties", Value.vdict props),
   ("target_name", Value.str target), ("target_type", nodeTypeValueOf g target),
   ("direction", Value.str direction)]

/-- graph_manager.py `get_node_relationships`, backend branch:
`MATCH (n {name: $name})-[r]-(connected)` — every edge incident to the named
node, in either direction, flattened into record dicts. -/
def get_node_relationships (g : Graph) (name : String) : List Dict :=
  if g.nodes.any (fun n => decide (dictGet n "name" = some (Value.str name))) then
    (g.edges.filter (fun e => decide (e.src = name))).map
      (fun e => relRecord g e.typ e.props e.tgt "outgoing")
    ++ (g.edges.filter (fun e => decide (e.tgt = name ∧ e.src ≠ name))).map
      (fun e => relRecord g e.typ e.props e.src "incoming")
  else []

/-! ## crud_executor.py -/

/-- gpt_parser.py `Entity` (an extraction candidate; `confidence` is the
only numeric field the executor inspects, modelled as a rational). -/
structure Entity where
  name : String
  type : String
  properties : Dict
  confidence : ℚ

/-- gpt_parser.py `Relationship`. -/
structure Relationship where
  from_entity : String
  to_entity : String
  type : String
  properties : Dict
  confidence : ℚ

/-- gpt_parser.py `ParsedConversation`. -/
structure ParsedConversation where
  intent : String
  entities : List Entity
  relationships : List Relationship
  confidence : ℚ
  raw_response : String

/-- crud_executor.py `_should_process_entity`: confidence floor 0.3,
non-empty trimmed name, name not a generic term (case-insensitive). -/
def _should_process_entity (entity : Entity) : Bool :=
  if entity.confidence < 3/10 then false
  else if entity.name = "" ∨ py_strip_ws entity.name = "" then false
  else if ["thing", "stuff", "something", "anything", "everything"].contains
      (py_lower entity.name) then false
  else true

/-- crud_executor.py `_should_process_relationship`: confidence floor 0.3,
non-empty trimmed endpoints, no self-relationship (case-insensitive). -/
def _should_process_relationship (relationship : Relationship) : Bool :=
  if relationship.confidence < 3/10 then false
  else if relationship.from_entity = "" ∨ relationship.to_entity = "" ∨
      py_strip_ws relationship.from_entity = "" ∨ py_strip_ws relationship.to_entity = ""
    then false
  else if py_lower relationship.from_entity = py_lower relationship.to_entity then false
  else true

/-- One GraphStore invocation made by the executor: the claims about the
executor are claims about which of these calls each path performs. -/
inductive StoreCall where
  | create_or_update_node (name node_type : String) (properties : Dict)
  | create_relationship (from_node to_node rel_type : String) (properties : Dict)
  | get_graph_statistics
  | get_node_with_relationships (name : String)
  | get_nodes_by_type (node_type : String)
  | get_node (name : String)
  | update_node_properties (name : String) (properties : Dict)
  | delete_node (name : String)
  | delete_relationship (from_node to_node rel_type : String)
deriving DecidableEq

/-- The store answers the executor's reads; only the answers that steer the
executor's control flow are needed: `get_node` (truthiness of the returned
dict) and `get_node_with_relationships` (None or a dict, which is never
empty when present). -/
structure StoreOracle where
  get_node : String → Option Dict
  get_node_with_relationships : String → Option Dict

/-- One gated loop of the executor: for each candidate that passes the gate
`c`, perform the calls `h` prescribes, in list order. -/
def gatedCalls {α : Type} (c : α → Bool) (h : α → List StoreCall) (l : List α) : List StoreCall :=
  l.foldl (fun acc a => if c a then acc ++ h a else acc) []

/-- crud_executor.py `_execute_create`: the sequence of store calls
(entity loop, then relationship loop, each gated by its predicate). -/
def execute_create_calls (p : ParsedConversation) : List StoreCall :=
  gatedCalls _should_process_entity
    (fun e => [StoreCall.create_or_update_node e.name e.type e.properties]) p.entities
  ++ gatedCalls _should_process_relationship
    (fun r => [StoreCall.create_relationship r.from_entity r.to_entity r.type r.properties])
    p.relationships

/-- crud_executor.py `_execute_read`: no entities ⇒ statistics; otherwise
`get_node_with_relationships` for every entity whose name is not "user"
(this path applies no acceptance policy), and if none of those lookups
found anything, `get_nodes_by_type` for every entity with a non-empty
type other than "Person". -/
def execute_read_calls (o : StoreOracle) (p : ParsedConversation) : List StoreCall :=
  if p.entities.isEmpty then [StoreCall.get_graph_statistics]
  else
    let queried := p.entities.filter (fun e => decide (py_lower e.name ≠ "user"))
    let any_found := queried.any (fun e => (o.get_node_with_relationships e.name).isSome)
    queried.map (fun e => StoreCall.get_node_with_relationships e.name)
    ++ (if any_found then []
        else (p.entities.filter (fun e => decide (e.type ≠ "" ∧ e.type ≠ "Person"))).map
          (fun e => StoreCall.get_nodes_by_type e.type))

/-- crud_executor.py `_execute_update`: for each accepted non-"user" entity,
`get_node`, then `update_node_properties` only if the returned dict is
truthy; for each accepted relationship, delete then recreate. -/
def execute_update_calls (o : StoreOracle) (p : ParsedConversation) : List StoreCall :=
  gatedCalls (fun e => _should_process_entity e && decide (py_lower e.name ≠ "user"))
    (fun e => [StoreCall.get_node e.name]
      ++ (match o.get_node e.name with
          | some d => if d ≠ [] then [StoreCall.update_node_properties e.name e.properties] else []
          | none => [])) p.entities
  ++ gatedCalls _should_process_relationship
    (fun r => [StoreCall.delete_relationship r.from_entity r.to_entity r.type,
               StoreCall.create_relationship r.from_entity r.to_entity r.type r.properties])
    p.relationships

/-- crud_executor.py `_execute_delete`: accepted relationships are deleted
first; then accepted entities are deleted, except those whose lowercased
name is "user", "me" or "i". -/
def execute_delete_calls (p : ParsedConversation) : List StoreCall :=
  gatedCalls _should_process_relationship
    (fun r => [StoreCall.delete_relationship r.from_entity r.to_entity r.type]) p.relationships
  ++ gatedCalls
    (fun e => _should_process_entity e && !(["user", "me", "i"].contains (py_lower e.name)))
    (fun e => [StoreCall.delete_node e.name]) p.entities

/-- crud_executor.py `execute_parsed_conversation`: dispatch on the intent. -/
def execute_calls (o : StoreOracle) (p : ParsedConversation) : List StoreCall :=
  if p.intent = "CREATE" then execute_create_calls p
  else if p.intent = "READ" ∨ p.intent = "QUERY" then execute_read_calls o p
  else if p.intent = "UPDATE" then execute_update_calls o p
  else if p.intent = "DELETE" then execute_delete_calls p
  else []

/-! ## memory_retriever.py -/

/-- memory_retriever.py `_extract_keywords`: the fixed stop-word set
(note: it does not contain "tell" or "about"). -/
def stop_words : List String :=
  ["i", "me", "my", "myself", "we", "our", "ours", "ourselves", "you", "your", "yours",
   "yourself", "yourselves", "he", "him", "his", "himself", "she", "her", "hers",
   "herself", "it", "its", "itself", "they", "them", "their", "theirs", "themselves",
   "what", "which", "who", "whom", "this", "that", "these", "those", "am", "is", "are",
   "was", "were", "be", "been", "being", "have", "has", "had", "having", "do", "does",
   "did", "doing", "a", "an", "the", "and", "but", "if", "or", "because", "as", "until",
   "while", "of", "at", "by", "for", "with", "through", "during", "before", "after",
   "above", "below", "up", "down", "in", "out", "on", "off", "over", "under", "again",
   "further", "then", "once"]

def isStripPunct (c : Char) : Bool :=
  decide (c = '.') || decide (c = ',') || decide (c = '!') || decide (c = '?') ||
  decide (c = ';') || decide (c = ':')

/-- memory_retriever.py `_extract_keywords`: lowercase, whitespace-split,
keep words not in the stop-word set and longer than 2 characters (both
checks on the unstripped word), strip `.,!?;:` from both ends of the
survivors, take the first 5. -/
def _extract_keywords (query : String) : List String :=
  let words := py_split_ws (py_lower query)
  let keywords := (words.filter (fun w =>
    !(stop_words.contains w) && decide (w.length > 2))).map (py_strip_list isStripPunct)
  keywords.take 5

/-- memory_retriever.py `_deduplicate_list`: keep an item only if
`item.get(key)` is present, truthy, and not seen before. -/
def _deduplicate_list (items : List Dict) (key : String) : List Dict :=
  (items.foldl (fun (acc : List Dict × List Value) item =>
    match dictGet item key with
    | some idv =>
      if truthy idv && !(acc.2.contains idv) then (acc.1 ++ [item], idv :: acc.2) else acc
    | none => acc) ([], [])).1

/-- memory_retriever.py `_get_keyword_matches` against a backend-connected
store: per-keyword name search (each truncated to `max_results`), then all
relationships of every matched entity, then deduplication (entities by
`"name"`, relationships by `"id"`) and truncation. -/
def _get_keyword_matches (g : Graph) (query : String) (max_results : Nat) :
    List Dict × List Dict :=
  let keywords := _extract_keywords query
  let entities := keywords.foldl (fun acc kw =>
    acc ++ (search_nodes_by_name g kw).take max_results) []
  let relationships := entities.foldl (fun acc ent =>
    acc ++ get_node_relationships g (match dictGet ent "name" with
      | some (Value.str s) => s
      | _ => "")) []
  ((_deduplicate_list entities "name").take max_results,
   (_deduplicate_list relationships "id").take max_results)

/-- A frontier entry of `find_related_entities`: `(entity, depth, path)`. -/
structure QEntry where
  entity : String
  depth : Nat
  path : List Dict

/-- One result entry of `find_related_entities`. -/
structure RelatedEntry where
  entity : String
  depth : Nat
  path : List Dict
  relationship_type : Option Value

/-- The record a relationship dict contributes when its `target_name` is a
truthy string not yet visited. -/
def relTargetStr (r : Dict) : String :=
  match dictGet r "target_name" with
  | some (Value.str t) => t
  | _ => ""

def relTargetOk (visited : List String) (r : Dict) : Bool :=
  match dictGet r "target_name" with
  | some (Value.str t) => decide (t ≠ "") && !(visited.contains t)
  | _ => false

/-- memory_retriever.py `find_related_entities`'s `while` loop, with an
explicit fuel argument standing for the number of iterations still
allowed; `none` means the fuel ran out before the loop finished.  Each
iteration checks `queue and len(related) < 20`, pops the head, skips
visited or too-deep entries, and otherwise expands: every relationship
whose target is truthy and unvisited is appended to the results at
`depth + 1`, and (only if `depth + 1 < max_depth`) to the queue. -/
def frLoop (g : Graph) (max_depth : Nat) :
    Nat → List QEntry → List String → List RelatedEntry → Option (List RelatedEntry)
  | 0, _, _, _ => none
  | _ + 1, [], _, related => some related
  | fuel + 1, q :: rest, visited, related =>
    if related.length ≥ 20 then some related
    else if visited.contains q.entity ∨ q.depth > max_depth then
      frLoop g max_depth fuel rest visited related
    else
      let visited' := q.entity :: visited
      let news := (get_node_relationships g q.entity).filter (relTargetOk visited')
      let related' := related ++ news.map (fun r =>
        { entity := relTargetStr r, depth := q.depth + 1, path := q.path ++ [r],
          relationship_type := dictGet r "type" })
      let queue' := rest ++ (if q.depth + 1 < max_depth then
        news.map (fun r =>
          { entity := relTargetStr r, depth := q.depth + 1, path := q.path ++ [r] : QEntry })
        else [])
      frLoop g max_depth fuel queue' visited' related'

/-- Every name that can ever enter the frontier other than the start:
the endpoints of the graph's edges. -/
def graphEndpoints (g : Graph) : List String :=
  g.edges.foldr (fun e acc => e.src :: e.tgt :: acc) []

/-- Fuel that (as proved below) always suffices for `frLoop` to finish. -/
def frFuel (g : Graph) (entity_name : String) : Nat :=
  2 + (entity_name :: graphEndpoints g).length * (1 + 2 * g.edges.length)

/-- memory_retriever.py `find_related_entities`: run the loop from
`[(entity_name, 0, [])]` with empty visited set and result list.  The
fuel is generous enough that the loop always finishes (proved below), so
the `Option` is always `some`. -/
def find_related_entities (g : Graph) (entity_name : String) (max_depth : Nat) :
    Option (List RelatedEntry) :=
  frLoop g max_depth (frFuel g entity_name)
    [{ entity := entity_name, depth := 0, path := [] }] [] []

/-! ## Dictionary lemmas -/

theorem dictGet_nil (k : String) : dictGet [] k = none := rfl

theorem dictGet_cons (k₀ : String) (v₀ : Value) (d : Dict) (k : String) :
    dictGet ((k₀, v₀) :: d) k = if k₀ = k then some v₀ else dictGet d k := by
  by_cases h : k₀ = k <;> simp [dictGet, List.find?, h]

theorem dictGet_map_overwrite (d : Dict) (k k' : String) (v : Value) (h : k' ≠ k) :
    dictGet (d.map (fun p => if p.1 = k then (k, v) else p)) k' = dictGet d k' := by
  induction d with
  | nil => rfl
  | cons p d ih =>
    obtain ⟨k₀, v₀⟩ := p
    by_cases hk : k₀ = k
    · subst hk
      simp only [List.map_cons, if_pos rfl]
      rw [dictGet_cons, dictGet_cons, if_neg (fun hc => h hc.symm),
        if_neg (fun hc => h hc.symm), ih]
    · simp only [List.map_cons, if_neg hk]
      rw [dictGet_cons, dictGet_cons, ih]

theorem dictGet_map_overwrite_self (d : Dict) (k : String) (v : Value)
    (h : d.any (fun p => decide (p.1 = k)) = true) :
    dictGet (d.map (fun p => if p.1 = k then (k, v) else p)) k = some v := by
  induction d with
  | nil => simp at h
  | cons p d ih =>
    obtain ⟨k₀, v₀⟩ := p
    by_cases hk : k₀ = k
    · subst hk
      simp [dictGet_cons]
    · simp only [List.any_cons, Bool.or_eq_true, decide_eq_true_eq] at h
      rcases h with h | h
      · exact absurd h hk
      · simp only [List.map_cons, if_neg hk]
        rw [dictGet_cons, if_neg hk, ih h]

theorem dictGet_not_found (d : Dict) (k : String)
    (h : ¬ d.any (fun p => decide (p.1 = k)) = true) : dictGet d k = none := by
  apply Option.map_eq_none.mpr
  apply List.find?_eq_none.mpr
  intro p hp
  simp only [List.any_eq_true, decide_eq_true_eq, not_exists, not_and] at h
  simpa using h p hp

theorem dictGet_append (d₁ d₂ : Dict) (k : String) :
    dictGet (d₁ ++ d₂) k = (dictGet d₁ k).or (dictGet d₂ k) := by
  unfold dictGet
  rw [List.find?_append]
  cases List.find? (fun p => decide (p.1 = k)) d₁ <;> simp

theorem dictGet_insert (d : Dict) (k k' : String) (v : Value) :
    dictGet (dictInsert d k v) k' = if k = k' then some v else dictGet d k' := by
  unfold dictInsert
  by_cases hk : k = k'
  · subst hk
    by_cases h : d.any (fun p => decide (p.1 = k)) = true
    · rw [if_pos h, if_pos rfl, dictGet_map_overwrite_self d k v h]
    · rw [if_neg h, if_pos rfl, dictGet_append, dictGet_not_found d k h]
      simp [dictGet_cons]
  · by_cases h : d.any (fun p => decide (p.1 = k)) = true
    · rw [if_pos h, if_neg hk, dictGet_map_overwrite d k k' v (fun hc => hk hc.symm)]
    · rw [if_neg h, if_neg hk, dictGet_append]
      have hone : dictGet [(k, v)] k' = none := by
        rw [dictGet_cons, if_neg hk, dictGet_nil]
      rw [hone]
      cases dictGet d k' <;> simp

theorem dictInsertMany_nil_kvs (d : Dict) : dictInsertMany d [] = d := rfl

theorem dictInsertMany_cons (d : Dict) (p : String × Value) (kvs : List (String × Value)) :
    dictInsertMany d (p :: kvs) = dictInsertMany (dictInsert d p.1 p.2) kvs := rfl

theorem lookupLast_nil (k : String) : lookupLast [] k = none := rfl

theorem lookupLast_cons (k₀ : String) (v₀ : Value) (kvs : List (String × Value)) (k : String) :
    lookupLast ((k₀, v₀) :: kvs) k =
      match lookupLast kvs k with
      | some v' => some v'
      | none => if k₀ = k then some v₀ else none := rfl

theorem lookupLast_eq_none_iff (kvs : List (String × Value)) (k : String) :
    lookupLast kvs k = none ↔ ∀ p ∈ kvs, p.1 ≠ k := by
  induction kvs with
  | nil => simp [lookupLast_nil]
  | cons p rest ih =>
    obtain ⟨k₀, v₀⟩ := p
    rw [lookupLast_cons]
    constructor
    · intro h
      cases hrest : lookupLast rest k with
      | some v' => rw [hrest] at h; exact absurd h (by simp)
      | none =>
        rw [hrest] at h
        intro q hq
        rcases List.mem_cons.mp hq with hq | hq
        · subst hq
          intro hc
          rw [if_pos hc] at h
          exact absurd h (by simp)
        · exact (ih.mp hrest) q hq
    · intro h
      have hrest : lookupLast rest k = none := ih.mpr (fun q hq => h q (List.mem_cons_of_mem _ hq))
      rw [hrest, if_neg (h (k₀, v₀) (List.mem_cons_self _ _))]

/-- The central dict computation lemma: a batch update reads back as the last
binding in the batch when there is one, and as the original dict otherwise. -/
theorem dictGet_insertMany (kvs : List (String × Value)) (d : Dict) (k : String) :
    dictGet (dictInsertMany d kvs) k = (lookupLast kvs k).or (dictGet d k) := by
  induction kvs generalizing d with
  | nil => simp [dictInsertMany_nil_kvs, lookupLast_nil]
  | cons p rest ih =>
    obtain ⟨k₀, v₀⟩ := p
    rw [dictInsertMany_cons, ih, lookupLast_cons, dictGet_insert]
    cases hrest : lookupLast rest k with
    | some v' => simp
    | none =>
      by_cases hk : k₀ = k
      · simp [hk]
      · simp [hk]

theorem dictGet_insertMany_nil (kvs : List (String × Value)) (k : String) :
    dictGet (dictInsertMany [] kvs) k = lookupLast kvs k := by
  rw [dictGet_insertMany, dictGet_nil]
  cases lookupLast kvs k <;> simp

/-- Keys of dicts built by insertion are distinct. -/
def KeysNodup (d : Dict) : Prop := (d.map Prod.fst).Nodup

theorem keysNodup_insert (d : Dict) (k : String) (v : Value) (h : KeysNodup d) :
    KeysNodup (dictInsert d k v) := by
  unfold dictInsert
  by_cases hany : d.any (fun p => decide (p.1 = k)) = true
  · rw [if_pos hany]
    have : (d.map (fun p => if p.1 = k then (k, v) else p)).map Prod.fst = d.map Prod.fst := by
      rw [List.map_map]
      apply List.map_congr_left
      intro p _
      by_cases hp : p.1 = k
      · simp [hp]
      · simp [hp]
    unfold KeysNodup
    rw [this]
    exact h
  · rw [if_neg hany]
    unfold KeysNodup
    rw [List.map_append]
    simp only [List.map_cons, List.map_nil]
    apply List.Nodup.append h (List.nodup_singleton k)
    intro a ha hb
    simp only [List.mem_singleton] at hb
    subst hb
    simp only [List.mem_map] at ha
    obtain ⟨p, hp, hpk⟩ := ha
    simp only [List.any_eq_true, decide_eq_true_eq, not_exists, not_and] at hany
    exact hany p hp hpk

theorem keysNodup_insertMany (kvs : List (String × Value)) (d : Dict) (h : KeysNodup d) :
    KeysNodup (dictInsertMany d kvs) := by
  induction kvs generalizing d with
  | nil => exact h
  | cons p rest ih => exact ih _ (keysNodup_insert d p.1 p.2 h)

theorem keysNodup_nil : KeysNodup [] := List.nodup_nil

theorem exists_key_of_dictGet_some (d : Dict) (k : String) (v : Value)
    (h : dictGet d k = some v) : ∃ q ∈ d, q.1 = k := by
  unfold dictGet at h
  cases hf : List.find? (fun p => decide (p.1 = k)) d with
  | none => rw [hf] at h; simp at h
  | some q =>
    have hq := List.find?_some hf
    have hmem := List.mem_of_find?_eq_some hf
    exact ⟨q, hmem, by simpa using hq⟩

theorem lookupLast_eq_dictGet_of_keysNodup (d : Dict) (k : String) (h : KeysNodup d) :
    lookupLast d k = dictGet d k := by
  induction d with
  | nil => rfl
  | cons p rest ih =>
    obtain ⟨k₀, v₀⟩ := p
    unfold KeysNodup at h
    simp only [List.map_cons, List.nodup_cons] at h
    obtain ⟨hnotin, hrest⟩ := h
    rw [lookupLast_cons, dictGet_cons, ih hrest]
    cases hfind : dictGet rest k with
    | some v' =>
      have hk : k₀ ≠ k := by
        intro hc
        subst hc
        obtain ⟨q, hq, hqk⟩ := exists_key_of_dictGet_some rest k₀ v' hfind
        exact hnotin (List.mem_map.mpr ⟨q, hq, hqk⟩)
      simp [hk]
    | none => rfl

theorem lookupLast_insertMany_nil (kvs : List (String × Value)) (k : String) :
    lookupLast (dictInsertMany [] kvs) k = lookupLast kvs k := by
  rw [lookupLast_eq_dictGet_of_keysNodup _ _ (keysNodup_insertMany kvs [] keysNodup_nil),
    dictGet_insertMany_nil]

theorem lookupLast_append (l₁ l₂ : List (String × Value)) (k : String) :
    lookupLast (l₁ ++ l₂) k = (lookupLast l₂ k).or (lookupLast l₁ k) := by
  induction l₁ with
  | nil => rw [List.nil_append, lookupLast_nil]; cases lookupLast l₂ k <;> simp
  | cons p rest ih =>
    obtain ⟨k₀, v₀⟩ := p
    rw [List.cons_append, lookupLast_cons, lookupLast_cons, ih]
    cases lookupLast l₂ k <;> cases lookupLast rest k <;> by_cases hk : k₀ = k <;> simp [hk]

theorem lookupLast_isSome_of_mem_keys (kvs : List (String × Value)) (k : String)
    (h : k ∈ kvs.map Prod.fst) : (lookupLast kvs k).isSome := by
  cases hl : lookupLast kvs k with
  | some v => simp
  | none =>
    obtain ⟨p, hp, hpk⟩ := List.mem_map.mp h
    exact absurd hpk ((lookupLast_eq_none_iff kvs k).mp hl p hp)

/-! ## Fallback-store lemmas -/

/-- How many stored nodes carry the given name. -/
def countNamed (nodes : List Dict) (name : String) : Nat :=
  (nodes.filter (fun n => decide (dictGet n "name" = some (Value.str name)))).length

theorem dictGet_create_literal (name node_type : String) (props : Dict) (k : String) :
    dictGet (demoCreateLiteral name node_type props) k =
      lookupLast ([("name", Value.str name), ("type", Value.str node_type)] ++ props
        ++ [("created_at", Value.str "demo_timestamp")]) k := by
  unfold demoCreateLiteral
  rw [dictGet_insertMany_nil]

theorem dictGet_update_literal (n : Dict) (node_type : String) (props : Dict) (k : String) :
    dictGet (dictInsertMany n (demoUpdateLiteral node_type props)) k =
      (lookupLast ([("type", Value.str node_type)] ++ props
        ++ [("updated_at", Value.str "demo_timestamp")]) k).or (dictGet n k) := by
  unfold demoUpdateLiteral
  rw [dictGet_insertMany]
  congr 1
  exact lookupLast_insertMany_nil _ k

theorem create_literal_named (name node_type : String) (props : Dict)
    (h : "name" ∉ props.map Prod.fst) :
    dictGet (demoCreateLiteral name node_type props) "name" = some (Value.str name) := by
  rw [dictGet_create_literal, lookupLast_append, lookupLast_append]
  have h1 : lookupLast [("created_at", Value.str "demo_timestamp")] "name" = none := by
    simp [lookupLast_cons, lookupLast_nil]
  have h2 : lookupLast props "name" = none :=
    (lookupLast_eq_none_iff props "name").mpr (fun p hp hc =>
      h (List.mem_map.mpr ⟨p, hp, hc⟩))
  have h3 : lookupLast [("name", Value.str name), ("type", Value.str node_type)] "name" =
      some (Value.str name) := by
    simp [lookupLast_cons, lookupLast_nil]
  rw [h1, h2, h3]
  rfl

theorem update_preserves_name (n : Dict) (node_type : String) (props : Dict)
    (h : "name" ∉ props.map Prod.fst) :
    dictGet (dictInsertMany n (demoUpdateLiteral node_type props)) "name" = dictGet n "name" := by
  rw [dictGet_update_literal, lookupLast_append, lookupLast_append]
  have h1 : lookupLast [("updated_at", Value.str "demo_timestamp")] "name" = none := by
    simp [lookupLast_cons, lookupLast_nil]
  have h2 : lookupLast props "name" = none :=
    (lookupLast_eq_none_iff props "name").mpr (fun p hp hc =>
      h (List.mem_map.mpr ⟨p, hp, hc⟩))
  have h3 : lookupLast [("type", Value.str node_type)] "name" = none := by
    simp [lookupLast_cons, lookupLast_nil]
  rw [h1, h2, h3]
  rfl

theorem update_value_at_key (n : Dict) (node_type : String) (props : Dict) (k : String)
    (hk : k ∈ props.map Prod.fst) (hupd : k ≠ "updated_at") :
    dictGet (dictInsertMany n (demoUpdateLiteral node_type props)) k = lookupLast props k := by
  rw [dictGet_update_literal, lookupLast_append, lookupLast_append]
  have h1 : lookupLast [("updated_at", Value.str "demo_timestamp")] k = none := by
    simp [lookupLast_cons, lookupLast_nil]
    intro hc
    exact absurd hc.symm hupd
  rw [h1]
  obtain ⟨v, hv⟩ := Option.isSome_iff_exists.mp (lookupLast_isSome_of_mem_keys props k hk)
  rw [hv]
  rfl

theorem demo_create_fst (nodes : List Dict) (name node_type : String) (props : Dict) :
    (_demo_create_or_update_node nodes name node_type props).1 = true := by
  induction nodes with
  | nil => rfl
  | cons n rest ih =>
    unfold _demo_create_or_update_node
    by_cases h : dictGet n "name" = some (Value.str name)
    · rw [if_pos h]
    · rw [if_neg h]
      exact ih

theorem demo_create_no_match (nodes : List Dict) (name node_type : String) (props : Dict)
    (h : ∀ n ∈ nodes, dictGet n "name" ≠ some (Value.str name)) :
    _demo_create_or_update_node nodes name node_type props =
      (true, nodes ++ [demoCreateLiteral name node_type props]) := by
  induction nodes with
  | nil => rfl
  | cons n rest ih =>
    unfold _demo_create_or_update_node
    rw [if_neg (h n (List.mem_cons_self _ _)), ih (fun m hm => h m (List.mem_cons_of_mem _ hm))]
    rfl

theorem demo_create_found (pre post : List Dict) (nf : Dict) (name node_type : String)
    (props : Dict)
    (hpre : ∀ n ∈ pre, dictGet n "name" ≠ some (Value.str name))
    (hnf : dictGet nf "name" = some (Value.str name)) :
    _demo_create_or_update_node (pre ++ nf :: post) name node_type props =
      (true, pre ++ dictInsertMany nf (demoUpdateLiteral node_type props) :: post) := by
  induction pre with
  | nil =>
    simp only [List.nil_append]
    unfold _demo_create_or_update_node
    rw [if_pos hnf]
  | cons n rest ih =>
    simp only [List.cons_append]
    unfold _demo_create_or_update_node
    rw [if_neg (hpre n (List.mem_cons_self _ _)),
      ih (fun m hm => hpre m (List.mem_cons_of_mem _ hm))]

theorem countNamed_append (l₁ l₂ : List Dict) (name : String) :
    countNamed (l₁ ++ l₂) name = countNamed l₁ name + countNamed l₂ name := by
  unfold countNamed
  rw [List.filter_append, List.length_append]

theorem countNamed_eq_zero (nodes : List Dict) (name : String)
    (h : ∀ n ∈ nodes, dictGet n "name" ≠ some (Value.str name)) :
    countNamed nodes name = 0 := by
  unfold countNamed
  rw [List.length_eq_zero]
  apply List.filter_eq_nil_iff.mpr
  intro n hn
  simpa using h n hn

/-! ## Executor lemmas -/

theorem foldl_gated_eq_append {α : Type} (c : α → Bool) (h : α → List StoreCall)
    (l : List α) (init : List StoreCall) :
    l.foldl (fun acc a => if c a then acc ++ h a else acc) init
      = init ++ gatedCalls c h l := by
  induction l generalizing init with
  | nil => simp [gatedCalls]
  | cons a l ih =>
    unfold gatedCalls
    simp only [List.foldl_cons]
    rw [ih, ih]
    by_cases hc : c a
    · simp [hc]
    · simp [hc]

theorem gatedCalls_cons {α : Type} (c : α → Bool) (h : α → List StoreCall)
    (a : α) (l : List α) :
    gatedCalls c h (a :: l) = (if c a then h a else []) ++ gatedCalls c h l := by
  unfold gatedCalls
  simp only [List.foldl_cons]
  rw [foldl_gated_eq_append]
  by_cases hc : c a
  · simp [hc, gatedCalls]
  · simp [hc, gatedCalls]

theorem mem_gatedCalls {α : Type} (c : α → Bool) (h : α → List StoreCall)
    (l : List α) (x : StoreCall) :
    x ∈ gatedCalls c h l ↔ ∃ a ∈ l, c a = true ∧ x ∈ h a := by
  induction l with
  | nil => simp [gatedCalls]
  | cons a l ih =>
    rw [gatedCalls_cons]
    by_cases hc : c a
    · simp only [if_pos hc, List.mem_append, ih, List.mem_cons]
      constructor
      · rintro (hx | ⟨b, hb, hcb, hxb⟩)
        · exact ⟨a, Or.inl rfl, hc, hx⟩
        · exact ⟨b, Or.inr hb, hcb, hxb⟩
      · rintro ⟨b, (rfl | hb), hcb, hxb⟩
        · exact Or.inl hxb
        · exact Or.inr ⟨b, hb, hcb, hxb⟩
    · simp only [if_neg hc, List.nil_append, ih, List.mem_cons]
      constructor
      · rintro ⟨b, hb, hcb, hxb⟩
        exact ⟨b, Or.inr hb, hcb, hxb⟩
      · rintro ⟨b, (rfl | hb), hcb, hxb⟩
        · exact absurd hcb (by simpa using hc)
        · exact ⟨b, hb, hcb, hxb⟩

theorem gatedCalls_filter {α : Type} (p c : α → Bool) (h : α → List StoreCall)
    (hpc : ∀ a, p a = false → c a = false) (l : List α) :
    gatedCalls c h (l.filter p) = gatedCalls c h l := by
  induction l with
  | nil => rfl
  | cons a l ih =>
    rw [List.filter_cons]
    by_cases hp : p a
    · rw [if_pos hp, gatedCalls_cons, gatedCalls_cons, ih]
    · rw [if_neg hp, gatedCalls_cons, ih,
        if_neg (by rw [hpc a (by simpa using hp)]; simp)]
      simp

/-- The executor's candidate filter: exactly the accepted entities and
relationships survive. -/
def filterAccepted (p : ParsedConversation) : ParsedConversation :=
  { p with entities := p.entities.filter _should_process_entity,
           relationships := p.relationships.filter _should_process_relationship }

theorem create_calls_filterAccepted (p : ParsedConversation) :
    execute_create_calls (filterAccepted p) = execute_create_calls p := by
  unfold execute_create_calls filterAccepted
  simp only
  rw [gatedCalls_filter _ _ _ (fun a ha => ha),
    gatedCalls_filter _ _ _ (fun a ha => ha)]

theorem update_calls_filterAccepted (o : StoreOracle) (p : ParsedConversation) :
    execute_update_calls o (filterAccepted p) = execute_update_calls o p := by
  unfold execute_update_calls filterAccepted
  simp only
  rw [gatedCalls_filter _ _ _ (fun a ha => by rw [ha]; rfl),
    gatedCalls_filter _ _ _ (fun a ha => ha)]

theorem delete_calls_filterAccepted (p : ParsedConversation) :
    execute_delete_calls (filterAccepted p) = execute_delete_calls p := by
  unfold execute_delete_calls filterAccepted
  simp only
  rw [gatedCalls_filter _ _ _ (fun a ha => ha),
    gatedCalls_filter _ _ _ (fun a ha => by rw [ha]; rfl)]

/-! ## Retriever lemmas -/

theorem mem_foldl_append {α β : Type} (f : α → List β) (l : List α) (init : List β) (x : β) :
    x ∈ l.foldl (fun acc a => acc ++ f a) init ↔ x ∈ init ∨ ∃ a ∈ l, x ∈ f a := by
  induction l generalizing init with
  | nil => simp
  | cons a l ih =>
    simp only [List.foldl_cons, ih, List.mem_append, List.mem_cons]
    constructor
    · rintro ((hx | hx) | ⟨b, hb, hxb⟩)
      · exact Or.inl hx
      · exact Or.inr ⟨a, Or.inl rfl, hx⟩
      · exact Or.inr ⟨b, Or.inr hb, hxb⟩
    · rintro (hx | ⟨b, (rfl | hb), hxb⟩)
      · exact Or.inl (Or.inl hx)
      · exact Or.inl (Or.inr hxb)
      · exact Or.inr ⟨b, hb, hxb⟩

theorem relRecord_id_none (g : Graph) (typ : String) (props : List (String × String))
    (target direction : String) :
    dictGet (relRecord g typ props target direction) "id" = none := rfl

theorem mem_get_node_relationships_id_none (g : Graph) (name : String) (r : Dict)
    (h : r ∈ get_node_relationships g name) : dictGet r "id" = none := by
  unfold get_node_relationships at h
  by_cases hg : g.nodes.any (fun n => decide (dictGet n "name" = some (Value.str name))) = true
  · rw [if_pos hg] at h
    rcases List.mem_append.mp h with h | h <;>
      · obtain ⟨e, _, rfl⟩ := List.mem_map.mp h
        exact relRecord_id_none ..
  · rw [if_neg hg] at h
    exact absurd h (List.not_mem_nil r)

theorem deduplicate_all_missing (items : List Dict) (key : String)
    (h : ∀ i ∈ items, dictGet i key = none) : _deduplicate_list items key = [] := by
  unfold _deduplicate_list
  have hstep : ∀ (items' : List Dict), (∀ i ∈ items', dictGet i key = none) →
      ∀ (acc : List Dict × List Value),
      (items'.foldl (fun acc item =>
        match dictGet item key with
        | some idv =>
          if truthy idv && !(acc.2.contains idv) then (acc.1 ++ [item], idv :: acc.2) else acc
        | none => acc) acc) = acc := by
    intro items'
    induction items' with
    | nil => intro _ _; rfl
    | cons i rest ih =>
      intro h' acc
      simp only [List.foldl_cons]
      rw [h' i (List.mem_cons_self _ _)]
      exact ih (fun j hj => h' j (List.mem_cons_of_mem _ hj)) _
  rw [hstep items h]

/-- The keyword-match relationship list is always empty: every relationship
record lacks the `"id"` key the deduplication step filters on. -/
theorem keyword_matches_relationships_nil (g : Graph) (query : String) (max_results : Nat) :
    (_get_keyword_matches g query max_results).2 = [] := by
  unfold _get_keyword_matches
  simp only
  rw [deduplicate_all_missing]
  · exact List.take_nil
  · intro i hi
    rw [mem_foldl_append] at hi
    rcases hi with hi | ⟨ent, _, hi⟩
    · exact absurd hi (List.not_mem_nil i)
    · exact mem_get_node_relationships_id_none _ _ _ hi

theorem extract_keywords_length_le (query : String) :
    (_extract_keywords query).length ≤ 5 := by
  unfold _extract_keywords
  simp only
  exact List.length_take_le 5 _

theorem extract_keywords_mem (query : String) (w : String)
    (h : w ∈ _extract_keywords query) :
    ∃ tok ∈ py_split_ws (py_lower query),
      tok ∉ stop_words ∧ tok.length > 2 ∧ w = py_strip_list isStripPunct tok := by
  unfold _extract_keywords at h
  simp only at h
  have h2 := List.mem_of_mem_take h
  obtain ⟨tok, htok, rfl⟩ := List.mem_map.mp h2
  obtain ⟨hmem, hcond⟩ := List.mem_filter.mp htok
  simp only [Bool.and_eq_true, Bool.not_eq_true', decide_eq_true_eq] at hcond
  refine ⟨tok, hmem, ?_, hcond.2, rfl⟩
  intro hc
  have : stop_words.contains tok = true := by simp [hc]
  rw [this] at hcond
  exact absurd hcond.1 (by simp)

/-! ## Traversal lemmas -/

theorem get_node_relationships_length_le (g : Graph) (name : String) :
    (get_node_relationships g name).length ≤ 2 * g.edges.length := by
  unfold get_node_relationships
  split
  · rw [List.length_append, List.length_map, List.length_map]
    have h1 := List.length_filter_le (fun e => decide (e.src = name)) g.edges
    have h2 := List.length_filter_le (fun e => decide (e.tgt = name ∧ e.src ≠ name)) g.edges
    omega
  · simp

theorem relTargetStr_mem_endpoint (g : Graph) (name : String) (r : Dict)
    (h : r ∈ get_node_relationships g name) :
    ∃ e ∈ g.edges, relTargetStr r = e.src ∨ relTargetStr r = e.tgt := by
  unfold get_node_relationships at h
  split at h
  · rcases List.mem_append.mp h with h | h
    · obtain ⟨e, he, rfl⟩ := List.mem_map.mp h
      exact ⟨e, List.mem_of_mem_filter he, Or.inr rfl⟩
    · obtain ⟨e, he, rfl⟩ := List.mem_map.mp h
      exact ⟨e, List.mem_of_mem_filter he, Or.inl rfl⟩
  · exact absurd h (List.not_mem_nil r)

theorem mem_endpoints_foldr (edges : List Edge) (e : Edge) (he : e ∈ edges) :
    e.src ∈ edges.foldr (fun e acc => e.src :: e.tgt :: acc) [] ∧
    e.tgt ∈ edges.foldr (fun e acc => e.src :: e.tgt :: acc) [] := by
  induction edges with
  | nil => exact absurd he (List.not_mem_nil e)
  | cons e₀ rest ih =>
    rcases List.mem_cons.mp he with rfl | he
    · simp
    · obtain ⟨h1, h2⟩ := ih he
      simp only [List.foldr_cons, List.mem_cons]
      exact ⟨Or.inr (Or.inr h1), Or.inr (Or.inr h2)⟩

theorem mem_graphEndpoints (g : Graph) (e : Edge) (he : e ∈ g.edges) :
    e.src ∈ graphEndpoints g ∧ e.tgt ∈ graphEndpoints g :=
  mem_endpoints_foldr g.edges e he

/-- With fuel at least `1 + |queue| + |unvisited universe| * (1 + 2|edges|)`,
the traversal loop finishes (does not run out of fuel). -/
theorem frLoop_isSome (g : Graph) (max_depth : Nat) (U : List String)
    (hU : ∀ e ∈ g.edges, e.src ∈ U ∧ e.tgt ∈ U) :
    ∀ (fuel : Nat) (queue : List QEntry) (visited : List String)
      (related : List RelatedEntry),
      (∀ q ∈ queue, q.entity ∈ U) →
      1 + queue.length + (U.toFinset \ visited.toFinset).card * (1 + 2 * g.edges.length)
        ≤ fuel →
      (frLoop g max_depth fuel queue visited related).isSome := by
  intro fuel
  induction fuel with
  | zero =>
    intro queue visited related _ hfuel
    omega
  | succ fuel ih =>
    intro queue visited related hq hfuel
    match queue with
    | [] => simp [frLoop]
    | q :: rest =>
      simp only [frLoop]
      by_cases h20 : related.length ≥ 20
      · rw [if_pos h20]
        simp
      rw [if_neg h20]
      by_cases hskip : visited.contains q.entity ∨ q.depth > max_depth
      · rw [if_pos hskip]
        apply ih rest visited related (fun a ha => hq a (List.mem_cons_of_mem _ ha))
        simp only [List.length_cons] at hfuel
        omega
      · rw [if_neg hskip]
        push_neg at hskip
        have hnotvis : q.entity ∉ visited := by
          intro hc
          exact absurd (List.elem_iff.mpr hc) (by simpa using hskip.1)
        have hmemU : q.entity ∈ U := hq q (List.mem_cons_self _ _)
        have hin : q.entity ∈ U.toFinset \ visited.toFinset :=
          Finset.mem_sdiff.mpr ⟨List.mem_toFinset.mpr hmemU,
            fun hc => hnotvis (List.mem_toFinset.mp hc)⟩
        have hset : U.toFinset \ (q.entity :: visited).toFinset =
            (U.toFinset \ visited.toFinset).erase q.entity := by
          ext x
          simp only [Finset.mem_sdiff, List.mem_toFinset, List.mem_cons, Finset.mem_erase]
          tauto
        have hpos : 1 ≤ (U.toFinset \ visited.toFinset).card :=
          Finset.card_pos.mpr ⟨q.entity, hin⟩
        have hcard : (U.toFinset \ (q.entity :: visited).toFinset).card
            = (U.toFinset \ visited.toFinset).card - 1 := by
          rw [hset, Finset.card_erase_of_mem hin]
        have hnlen : ((get_node_relationships g q.entity).filter
            (relTargetOk (q.entity :: visited))).length ≤ 2 * g.edges.length :=
          le_trans (List.length_filter_le _ _)
            (get_node_relationships_length_le g q.entity)
        apply ih
        · intro a ha
          rcases List.mem_append.mp ha with ha | ha
          · exact hq a (List.mem_cons_of_mem _ ha)
          · have ha' : a ∈ ((get_node_relationships g q.entity).filter
                (relTargetOk (q.entity :: visited))).map (fun r =>
                ({ entity := relTargetStr r, depth := q.depth + 1,
                   path := q.path ++ [r] } : QEntry)) := by
              by_cases hd : q.depth + 1 < max_depth
              · rwa [if_pos hd] at ha
              · rw [if_neg hd] at ha
                exact absurd ha (List.not_mem_nil a)
            obtain ⟨r, hr, rfl⟩ := List.mem_map.mp ha'
            have hrr : r ∈ get_node_relationships g q.entity := List.mem_of_mem_filter hr
            obtain ⟨e, he, hre⟩ := relTargetStr_mem_endpoint g q.entity r hrr
            obtain ⟨hs, ht⟩ := hU e he
            rcases hre with hre | hre
            · simpa [hre] using hs
            · simpa [hre] using ht
        · rw [List.length_append]
          have hite : (if q.depth + 1 < max_depth then
              ((get_node_relationships g q.entity).filter
                (relTargetOk (q.entity :: visited))).map (fun r =>
                ({ entity := relTargetStr r, depth := q.depth + 1,
                   path := q.path ++ [r] } : QEntry)) else []).length
              ≤ ((get_node_relationships g q.entity).filter
                (relTargetOk (q.entity :: visited))).length := by
            split
            · rw [List.length_map]
            · simp
          rw [hcard]
          have hmul : (U.toFinset \ visited.toFinset).card * (1 + 2 * g.edges.length)
              = ((U.toFinset \ visited.toFinset).card - 1) * (1 + 2 * g.edges.length)
                + (1 + 2 * g.edges.length) := by
            have h1 : (U.toFinset \ visited.toFinset).card
                = ((U.toFinset \ visited.toFinset).card - 1) + 1 := by omega
            rw [h1]
            exact Nat.succ_mul _ _
          simp only [List.length_cons] at hfuel
          rw [hmul] at hfuel
          generalize ((U.toFinset \ visited.toFinset).card - 1)
            * (1 + 2 * g.edges.length) = A at hfuel ⊢
          omega

/-- Loop invariant: frontier entries sit strictly below `max_depth`, so no
result entry ever exceeds `max_depth`. -/
theorem frLoop_depth_le (g : Graph) (max_depth : Nat) :
    ∀ (fuel : Nat) (queue : List QEntry) (visited : List String)
      (related res : List RelatedEntry),
      (∀ q ∈ queue, q.depth < max_depth) →
      (∀ r ∈ related, r.depth ≤ max_depth) →
      frLoop g max_depth fuel queue visited related = some res →
      ∀ r ∈ res, r.depth ≤ max_depth := by
  intro fuel
  induction fuel with
  | zero =>
    intro queue visited related res _ _ h
    exact absurd h (by simp [frLoop])
  | succ fuel ih =>
    intro queue visited related res hq hrel h
    match queue with
    | [] =>
      simp only [frLoop, Option.some.injEq] at h
      subst h
      exact hrel
    | q :: rest =>
      simp only [frLoop] at h
      by_cases h20 : related.length ≥ 20
      · rw [if_pos h20] at h
        obtain rfl : related = res := by simpa using h
        exact hrel
      rw [if_neg h20] at h
      by_cases hskip : visited.contains q.entity ∨ q.depth > max_depth
      · rw [if_pos hskip] at h
        exact ih rest visited related res
          (fun a ha => hq a (List.mem_cons_of_mem _ ha)) hrel h
      · rw [if_neg hskip] at h
        apply ih _ _ _ _ _ _ h
        · intro a ha
          rcases List.mem_append.mp ha with ha | ha
          · exact hq a (List.mem_cons_of_mem _ ha)
          · by_cases hd : q.depth + 1 < max_depth
            · rw [if_pos hd] at ha
              obtain ⟨r, _, rfl⟩ := List.mem_map.mp ha
              exact hd
            · rw [if_neg hd] at ha
              exact absurd ha (List.not_mem_nil a)
        · intro r hr
          rcases List.mem_append.mp hr with hr | hr
          · exact hrel r hr
          · obtain ⟨rr, _, rfl⟩ := List.mem_map.mp hr
            exact Nat.succ_le_of_lt (hq q (List.mem_cons_self _ _))

/-- Loop invariant: the 20-cap is only checked before an expansion, so a
finishing run is bounded by 19 plus one node's relationship count. -/
theorem frLoop_length_le (g : Graph) (max_depth : Nat) :
    ∀ (fuel : Nat) (queue : List QEntry) (visited : List String)
      (related res : List RelatedEntry),
      related.length ≤ 19 + 2 * g.edges.length →
      frLoop g max_depth fuel queue visited related = some res →
      res.length ≤ 19 + 2 * g.edges.length := by
  intro fuel
  induction fuel with
  | zero =>
    intro queue visited related res _ h
    exact absurd h (by simp [frLoop])
  | succ fuel ih =>
    intro queue visited related res hrel h
    match queue with
    | [] =>
      simp only [frLoop, Option.some.injEq] at h
      subst h
      exact hrel
    | q :: rest =>
      simp only [frLoop] at h
      by_cases h20 : related.length ≥ 20
      · rw [if_pos h20] at h
        obtain rfl : related = res := by simpa using h
        exact hrel
      rw [if_neg h20] at h
      by_cases hskip : visited.contains q.entity ∨ q.depth > max_depth
      · rw [if_pos hskip] at h
        exact ih rest visited related res hrel h
      · rw [if_neg hskip] at h
        apply ih _ _ _ _ _ h
        rw [List.length_append, List.length_map]
        have hn : ((get_node_relationships g q.entity).filter
            (relTargetOk (q.entity :: visited))).length ≤ 2 * g.edges.length :=
          le_trans (List.length_filter_le _ _)
            (get_node_relationships_length_le g q.entity)
        omega

/-- `find_related_entities` always finishes with enough fuel, every result
entry stays within `max_depth = 2`, and the result size is bounded by
`19 + 2 * |edges|`. -/
theorem find_related_entities_spec (g : Graph) (entity_name : String) :
    ∃ res, find_related_entities g entity_name 2 = some res ∧
      (∀ r ∈ res, r.depth ≤ 2) ∧
      res.length ≤ 19 + 2 * g.edges.length := by
  have hU : ∀ e ∈ g.edges, e.src ∈ entity_name :: graphEndpoints g ∧
      e.tgt ∈ entity_name :: graphEndpoints g := by
    intro e he
    obtain ⟨h1, h2⟩ := mem_graphEndpoints g e he
    exact ⟨List.mem_cons_of_mem _ h1, List.mem_cons_of_mem _ h2⟩
  have hsome := frLoop_isSome g 2 (entity_name :: graphEndpoints g) hU
    (frFuel g entity_name)
    [{ entity := entity_name, depth := 0, path := [] }] [] []
    (by
      intro q hq
      obtain rfl : q = { entity := entity_name, depth := 0, path := [] } := by simpa using hq
      exact List.mem_cons_self _ _)
    (by
      unfold frFuel
      have hcard : ((entity_name :: graphEndpoints g).toFinset \
          ([] : List String).toFinset).card ≤ (entity_name :: graphEndpoints g).length := by
        calc ((entity_name :: graphEndpoints g).toFinset \
            ([] : List String).toFinset).card
            ≤ (entity_name :: graphEndpoints g).toFinset.card :=
              Finset.card_le_card (Finset.sdiff_subset)
          _ ≤ (entity_name :: graphEndpoints g).length := List.toFinset_card_le _
      have hmul := Nat.mul_le_mul_right (1 + 2 * g.edges.length) hcard
      have hlen : ([{ entity := entity_name, depth := 0, path := [] }] : List QEntry).length
          = 1 := rfl
      rw [hlen]
      generalize ((entity_name :: graphEndpoints g).toFinset \
        ([] : List String).toFinset).card * (1 + 2 * g.edges.length) = A at hmul ⊢
      generalize (entity_name :: graphEndpoints g).length * (1 + 2 * g.edges.length) = B at hmul ⊢
      omega)
  obtain ⟨res, hres⟩ := Option.isSome_iff_exists.mp hsome
  refine ⟨res, hres, ?_, ?_⟩
  · exact frLoop_depth_le g 2 _ _ _ _ _
      (by
        intro q hq
        obtain rfl : q = { entity := entity_name, depth := 0, path := [] } := by simpa using hq
        show (0 : Nat) < 2
        omega)
      (by intro r hr; exact absurd hr (List.not_mem_nil r)) hres
  · exact frLoop_length_le g 2 _ _ _ _ _ (by simp) hres

/-! ## Claim theorems -/

/-- The store after calling `create_or_update_node` twice in fallback mode
with identical arguments. -/
def demo_create_twice (nodes : List Dict) (name node_type : String) (props : Dict) :
    List Dict :=
  (_demo_create_or_update_node
    (_demo_create_or_update_node nodes name node_type props).2 name node_type props).2

/-- C9 (amended): in fallback mode, starting from a store with no node of the
given name and a properties map that does not bind the key "name", calling
create_or_update_node twice with the same name/type/properties leaves exactly
one node with that name, and every supplied property key (other than the
"updated_at" stamp) reads back as the supplied value. -/
theorem create_or_update_idempotent_merge (nodes : List Dict) (name node_type : String)
    (props : Dict)
    (hname : "name" ∉ props.map Prod.fst)
    (hfresh : ∀ n ∈ nodes, dictGet n "name" ≠ some (Value.str name)) :
    countNamed (demo_create_twice nodes name node_type props) name = 1 ∧
    ∃ nd, (demo_create_twice nodes name node_type props).find?
        (fun n => decide (dictGet n "name" = some (Value.str name))) = some nd ∧
      ∀ k ∈ props.map Prod.fst, k ≠ "updated_at" → dictGet nd k = lookupLast props k := by
  have h1 := demo_create_no_match nodes name node_type props hfresh
  have hN : dictGet (demoCreateLiteral name node_type props) "name" = some (Value.str name) :=
    create_literal_named name node_type props hname
  have h2 := demo_create_found nodes []
    (demoCreateLiteral name node_type props) name node_type props hfresh hN
  have hrun : demo_create_twice nodes name node_type props =
      nodes ++ [dictInsertMany (demoCreateLiteral name node_type props)
        (demoUpdateLiteral node_type props)] := by
    unfold demo_create_twice
    rw [h1]
    exact congrArg Prod.snd h2
  have hU : dictGet (dictInsertMany (demoCreateLiteral name node_type props)
      (demoUpdateLiteral node_type props)) "name" = some (Value.str name) := by
    rw [update_preserves_name _ _ _ hname]
    exact hN
  constructor
  · rw [hrun, countNamed_append, countNamed_eq_zero nodes name hfresh]
    simp [countNamed, List.filter, hU]
  · refine ⟨dictInsertMany (demoCreateLiteral name node_type props)
      (demoUpdateLiteral node_type props), ?_, ?_⟩
    · rw [hrun, List.find?_append]
      have hnone : (nodes.find? (fun n =>
          decide (dictGet n "name" = some (Value.str name)))) = none :=
        List.find?_eq_none.mpr (fun n hn => by simpa using hfresh n hn)
      rw [hnone]
      simp [List.find?, hU]
    · intro k hk hkupd
      exact update_value_at_key _ node_type props k hk hkupd

/-- C9 witness: the amended idempotent-merge theorem applied at a concrete
fresh store, name, type and property map. -/
theorem create_or_update_idempotent_merge_witness :
    ("name" ∉ ([("hobby", Value.str "x")] : Dict).map Prod.fst) ∧
    (countNamed (demo_create_twice [] "A" "T" [("hobby", Value.str "x")]) "A" = 1 ∧
     ∃ nd, (demo_create_twice [] "A" "T" [("hobby", Value.str "x")]).find?
         (fun n => decide (dictGet n "name" = some (Value.str "A"))) = some nd ∧
       ∀ k ∈ ([("hobby", Value.str "x")] : Dict).map Prod.fst, k ≠ "updated_at" →
         dictGet nd k = lookupLast [("hobby", Value.str "x")] k) :=
  ⟨by decide, create_or_update_idempotent_merge [] "A" "T" [("hobby", Value.str "x")]
    (by decide) (by decide)⟩

/-- C9 counterexample: with properties `{"name": "B"}`, calling
create_or_update_node twice for name "A" leaves zero nodes named "A" and two
nodes named "B" — not "exactly one node with that name". -/
theorem create_or_update_idempotent_counterexample :
    countNamed (demo_create_twice [] "A" "T" [("name", Value.str "B")]) "A" = 0 ∧
    (demo_create_twice [] "A" "T" [("name", Value.str "B")]).length = 2 := by decide

/-- C10: in fallback mode the properties map is splatted into the node
record, so `{"name": "B"}` overwrites the identity key: the stored node is
named "B", a second merge on "A" appends another node instead of updating,
and the store ends with two nodes named "B" — the at-most-one-node-per-name
invariant is broken. -/
theorem properties_name_key_breaks_invariant :
    countNamed (_demo_create_or_update_node [] "A" "T" [("name", Value.str "B")]).2 "B" = 1 ∧
    countNamed (_demo_create_or_update_node [] "A" "T" [("name", Value.str "B")]).2 "A" = 0 ∧
    (demo_create_twice [] "A" "T" [("name", Value.str "B")]).length = 2 ∧
    countNamed (demo_create_twice [] "A" "T" [("name", Value.str "B")]) "B" = 2 := by decide

/-- C1 counterexample: in fallback mode create_or_update_node reports
success, yet get_node returns None for the just-created entity — the entity
is not retrievable through get_node. -/
theorem fallback_get_node_returns_none :
    (_demo_create_or_update_node [] "A" "Person" []).1 = true ∧
    get_node_demo { demo_nodes := (_demo_create_or_update_node [] "A" "Person" []).2,
                    demo_relationships := [] } "A" = none := ⟨by decide, rfl⟩

/-- C1 (amended): in fallback mode entity creation always reports success and
is visible in the node count, relationship creation reports failure and
leaves the state unchanged, statistics report zero relationships after any
call sequence — but get_node returns None, and the other read methods return
empty results and the other write methods report failure, so the store does
not behave identically to backend-connected mode. -/
theorem fallback_mode_behaviour :
    (∀ (nodes : List Dict) (name node_type : String) (props : Dict),
      (_demo_create_or_update_node nodes name node_type props).1 = true) ∧
    (∀ (s : DemoState) (name : String), get_node_demo s name = none) ∧
    (∀ (s : DemoState) (f t rt : String) (props : Dict),
      create_relationship_demo s f t rt props = (false, s)) ∧
    (∀ ops : List DemoOp, (get_graph_statistics_demo (demo_run ops)).relationships = 0) ∧
    (∀ (nodes : List Dict) (name node_type : String) (props : Dict),
      "name" ∉ props.map Prod.fst →
      (∀ n ∈ nodes, dictGet n "name" ≠ some (Value.str name)) →
      countNamed (_demo_create_or_update_node nodes name node_type props).2 name = 1 ∧
      (_demo_create_or_update_node nodes name node_type props).2.length
        = nodes.length + 1) ∧
    (∀ (s : DemoState) (name : String),
      get_all_nodes_demo s = [] ∧ search_nodes_by_name_demo s name = [] ∧
      get_node_relationships_demo s name = [] ∧ get_node_with_relationships_demo s name = none ∧
      (delete_node_demo s name).1 = false ∧
      (update_node_properties_demo s name []).1 = false ∧
      (delete_relationship_demo s name name name).1 = false) ∧
    (∀ s : DemoState,
      (get_graph_data_for_visualization_demo s).total_nodes = s.demo_nodes.length) := by
  refine ⟨demo_create_fst, fun _ _ => rfl, fun _ _ _ _ _ => rfl, ?_, ?_, ?_,
    fun s => by unfold get_graph_data_for_visualization_demo; simp⟩
  · intro ops
    have hpres : ∀ (s : DemoState) (op : DemoOp),
        (demo_step s op).demo_relationships = s.demo_relationships := by
      intro s op
      cases op <;> rfl
    have hrun : ∀ (l : List DemoOp) (s : DemoState),
        (l.foldl demo_step s).demo_relationships = s.demo_relationships := by
      intro l
      induction l with
      | nil => intro s; rfl
      | cons op rest ih =>
        intro s
        rw [List.foldl_cons, ih, hpres]
    unfold get_graph_statistics_demo demo_run
    rw [hrun]
    rfl
  · intro nodes name node_type props hname hfresh
    rw [demo_create_no_match nodes name node_type props hfresh]
    constructor
    · rw [countNamed_append, countNamed_eq_zero nodes name hfresh]
      simp [countNamed, List.filter, create_literal_named name node_type props hname]
    · simp
  · intro s name
    exact ⟨rfl, rfl, rfl, rfl, rfl, rfl, rfl⟩

/-- C1 witness: the creation-visibility conjunct applied at a concrete
fresh store. -/
theorem fallback_mode_behaviour_witness :
    ("name" ∉ (([] : Dict)).map Prod.fst) ∧
    (countNamed (_demo_create_or_update_node [] "A" "Person" []).2 "A" = 1 ∧
     (_demo_create_or_update_node [] "A" "Person" []).2.length = 0 + 1) :=
  ⟨by decide, fallback_mode_behaviour.2.2.2.2.1 [] "A" "Person" [] (by decide) (by decide)⟩

/-- C2 counterexample: for the non-allow-listed relationship type "BOGUS",
both create_relationship and delete_relationship still construct and run a
backend query, with "BOGUS" spliced verbatim into the query text — no
rejection happens before query construction. -/
theorem rel_type_allowlist_not_enforced :
    "BOGUS" ∉ RELATIONSHIP_TYPES ∧
    (create_relationship_backend_call "a" "b" "BOGUS" []).1 =
      create_relationship_query_pre ++ "BOGUS" ++ create_relationship_query_post ∧
    (delete_relationship_backend_call "a" "b" "BOGUS").1 =
      delete_relationship_query_pre ++ "BOGUS" ++ delete_relationship_query_post :=
  ⟨by decide, rfl, rfl⟩

/-- C2 (amended): neither create_relationship nor delete_relationship
validates rel_type against RELATIONSHIP_TYPES (or anything else): for every
rel_type whatsoever the backend query text is built with rel_type
interpolated verbatim between the fixed surrounding query fragments, and the
call proceeds. -/
theorem rel_type_spliced_unvalidated (from_node to_node rel_type : String)
    (properties : Dict) :
    (create_relationship_backend_call from_node to_node rel_type properties).1 =
      create_relationship_query_pre ++ rel_type ++ create_relationship_query_post ∧
    (delete_relationship_backend_call from_node to_node rel_type).1 =
      delete_relationship_query_pre ++ rel_type ++ delete_relationship_query_post :=
  ⟨rfl, rfl⟩

/-- A store that answers every lookup with None (an empty backend). -/
def oracle_empty : StoreOracle :=
  { get_node := fun _ => none, get_node_with_relationships := fun _ => none }

/-- A READ-intent extraction carrying the blocklisted, low-confidence
candidate "thing". -/
def parsed_read_thing : ParsedConversation :=
  { intent := "READ"
    entities := [{ name := "thing", type := "Concept", properties := [], confidence := 1/10 }]
    relationships := []
    confidence := 1/10
    raw_response := "" }

/-- C3 counterexample: under READ intent, the candidate "thing" with
confidence 0.1 fails the acceptance policy, yet the executor still issues a
get_node_with_relationships call for it — the policy is not applied on the
READ path. -/
theorem read_path_ignores_policy :
    _should_process_entity
      { name := "thing", type := "Concept", properties := [], confidence := 1/10 } = false ∧
    StoreCall.get_node_with_relationships "thing" ∈ execute_calls oracle_empty
      parsed_read_thing := by
  constructor
  · unfold _should_process_entity
    rw [if_pos (show ((1:ℚ)/10) < 3/10 by norm_num)]
  · decide

/-- C3 (amended): the acceptance policy does gate the CREATE, UPDATE and
DELETE paths — dropping every rejected candidate leaves each path's store
calls unchanged, so rejected candidates trigger no call there — but, per the
counterexample, the READ/QUERY path issues store calls regardless of the
policy. -/
theorem acceptance_policy_gates_cud_paths :
    (∀ p : ParsedConversation,
      execute_create_calls (filterAccepted p) = execute_create_calls p) ∧
    (∀ (o : StoreOracle) (p : ParsedConversation),
      execute_update_calls o (filterAccepted p) = execute_update_calls o p) ∧
    (∀ p : ParsedConversation,
      execute_delete_calls (filterAccepted p) = execute_delete_calls p) :=
  ⟨create_calls_filterAccepted, update_calls_filterAccepted, delete_calls_filterAccepted⟩

/-- C7: the DELETE path never issues delete_node for a name whose lowercase
form is "user", "me" or "i" — whatever the candidate's confidence or
acceptance status — and the trace splits into relationship deletions
followed by entity deletions. -/
theorem delete_protected_names (p : ParsedConversation) (name : String)
    (h : py_lower name ∈ ["user", "me", "i"]) :
    StoreCall.delete_node name ∉ execute_delete_calls p ∧
    ∃ l₁ l₂, execute_delete_calls p = l₁ ++ l₂ ∧
      (∀ c ∈ l₁, ∃ f t rt, c = StoreCall.delete_relationship f t rt) ∧
      (∀ c ∈ l₂, ∃ nm, c = StoreCall.delete_node nm) := by
  constructor
  · intro hc
    unfold execute_delete_calls at hc
    rcases List.mem_append.mp hc with hc | hc
    · obtain ⟨r, _, _, hx⟩ := (mem_gatedCalls _ _ _ _).mp hc
      simp at hx
    · obtain ⟨e, _, hgate, hx⟩ := (mem_gatedCalls _ _ _ _).mp hc
      simp only [List.mem_singleton, StoreCall.delete_node.injEq] at hx
      simp only [Bool.and_eq_true, Bool.not_eq_true'] at hgate
      have hmem : py_lower e.name ∈ ["user", "me", "i"] := hx ▸ h
      have hcontains : (["user", "me", "i"].contains (py_lower e.name)) = true := by
        simp [hmem]
      rw [hcontains] at hgate
      exact absurd hgate.2 (by simp)
  · refine ⟨gatedCalls _should_process_relationship
        (fun r => [StoreCall.delete_relationship r.from_entity r.to_entity r.type])
        p.relationships,
      gatedCalls (fun e => _should_process_entity e
          && !(["user", "me", "i"].contains (py_lower e.name)))
        (fun e => [StoreCall.delete_node e.name]) p.entities,
      rfl, ?_, ?_⟩
    · intro c hc
      obtain ⟨r, _, _, hx⟩ := (mem_gatedCalls _ _ _ _).mp hc
      simp only [List.mem_singleton] at hx
      exact ⟨r.from_entity, r.to_entity, r.type, hx⟩
    · intro c hc
      obtain ⟨e, _, _, hx⟩ := (mem_gatedCalls _ _ _ _).mp hc
      simp only [List.mem_singleton] at hx
      exact ⟨e.name, hx⟩

/-- A DELETE-intent extraction carrying the protected entity "Me" with high
confidence. -/
def parsed_delete_me : ParsedConversation :=
  { intent := "DELETE"
    entities := [{ name := "Me", type := "Person", properties := [], confidence := 9/10 }]
    relationships := []
    confidence := 9/10
    raw_response := "" }

/-- C7 witness: the protected-name theorem applied to a concrete DELETE
request carrying the entity "Me" with confidence 0.9. -/
theorem delete_protected_names_witness :
    (py_lower "Me" ∈ ["user", "me", "i"]) ∧
    (StoreCall.delete_node "Me" ∉ execute_delete_calls parsed_delete_me ∧
     ∃ l₁ l₂, execute_delete_calls parsed_delete_me = l₁ ++ l₂ ∧
       (∀ c ∈ l₁, ∃ f t rt, c = StoreCall.delete_relationship f t rt) ∧
       (∀ c ∈ l₂, ∃ nm, c = StoreCall.delete_node nm)) :=
  ⟨by decide, delete_protected_names parsed_delete_me "Me" (by decide)⟩

/-- A READ-intent extraction carrying the low-confidence candidate "guitar". -/
def parsed_read_guitar : ParsedConversation :=
  { intent := "READ"
    entities := [{ name := "guitar", type := "Skill", properties := [], confidence := 1/10 }]
    relationships := []
    confidence := 1/10
    raw_response := "" }

/-- C8 counterexample: an entity candidate with confidence 0.1 — strictly
below the floor — is still processed on the READ path: the executor issues a
store call for it. -/
theorem confidence_floor_read_path_counterexample :
    ((1:ℚ)/10 < 3/10) ∧
    StoreCall.get_node_with_relationships "guitar" ∈ execute_calls oracle_empty
      parsed_read_guitar :=
  ⟨by norm_num, by decide⟩

/-- C8 (amended): the acceptance predicates reject any candidate whose
confidence is strictly below 0.3 and accept confidence exactly 0.3 when the
other conditions hold, and these predicates gate the CREATE, UPDATE and
DELETE paths (rejected candidates trigger no store call there); the READ
path, however, consults no confidence at all. -/
theorem confidence_floor_boundary :
    (∀ e : Entity, e.confidence < 3/10 → _should_process_entity e = false) ∧
    (∀ r : Relationship, r.confidence < 3/10 → _should_process_relationship r = false) ∧
    (∀ e : Entity, e.confidence = 3/10 → ¬(e.name = "" ∨ py_strip_ws e.name = "") →
      ¬(["thing", "stuff", "something", "anything", "everything"].contains
          (py_lower e.name) = true) →
      _should_process_entity e = true) ∧
    (∀ r : Relationship, r.confidence = 3/10 →
      ¬(r.from_entity = "" ∨ r.to_entity = "" ∨ py_strip_ws r.from_entity = "" ∨
        py_strip_ws r.to_entity = "") →
      ¬(py_lower r.from_entity = py_lower r.to_entity) →
      _should_process_relationship r = true) ∧
    (∀ p : ParsedConversation,
      execute_create_calls (filterAccepted p) = execute_create_calls p) ∧
    (∀ (o : StoreOracle) (p : ParsedConversation),
      execute_update_calls o (filterAccepted p) = execute_update_calls o p) ∧
    (∀ p : ParsedConversation,
      execute_delete_calls (filterAccepted p) = execute_delete_calls p) := by
  refine ⟨?_, ?_, ?_, ?_, create_calls_filterAccepted, update_calls_filterAccepted,
    delete_calls_filterAccepted⟩
  · intro e h
    unfold _should_process_entity
    rw [if_pos h]
  · intro r h
    unfold _should_process_relationship
    rw [if_pos h]
  · intro e hconf hname hgen
    unfold _should_process_entity
    rw [if_neg (by rw [hconf]; exact lt_irrefl _), if_neg hname, if_neg hgen]
  · intro r hconf hends hself
    unfold _should_process_relationship
    rw [if_neg (by rw [hconf]; exact lt_irrefl _), if_neg hends, if_neg hself]

/-- C8 witness: the floor and boundary conjuncts applied to concrete
candidates with confidence 0.2 (rejected) and exactly 0.3 (accepted). -/
theorem confidence_floor_boundary_witness :
    (((1:ℚ)/5 < 3/10) ∧ _should_process_entity
      { name := "Guitar", type := "Skill", properties := [], confidence := 1/5 } = false) ∧
    _should_process_entity
      { name := "Guitar", type := "Skill", properties := [], confidence := 3/10 } = true :=
  ⟨⟨by norm_num, confidence_floor_boundary.1 _ (by norm_num)⟩,
   confidence_floor_boundary.2.2.1 _ rfl (by decide) (by decide)⟩

/-- The 21-edge star used to exhibit the traversal result-size overshoot. -/
def starGraph : Graph :=
  { nodes := [("name", Value.str "c")] ::
      (["t01", "t02", "t03", "t04", "t05", "t06", "t07", "t08", "t09", "t10", "t11",
        "t12", "t13", "t14", "t15", "t16", "t17", "t18", "t19", "t20", "t21"].map
        (fun n => [("name", Value.str n)]))
    edges := ["t01", "t02", "t03", "t04", "t05", "t06", "t07", "t08", "t09", "t10", "t11",
        "t12", "t13", "t14", "t15", "t16", "t17", "t18", "t19", "t20", "t21"].map
      (fun n => { src := "c", tgt := n, typ := "KNOWS", props := [] }) }

/-- C4 counterexample: on a node with 21 relationships, find_related_entities
with max_depth 2 returns 21 entities — the size check happens only before an
expansion, so a single expansion overshoots the 20 cap. -/
theorem find_related_entities_exceeds_twenty :
    ((find_related_entities starGraph "c" 2).getD []).length = 21 ∧
    ¬((find_related_entities starGraph "c" 2).getD []).length ≤ 20 := by decide

/-- C4 (amended): for every graph (cyclic or not), find_related_entities with
max_depth 2 terminates (the loop finishes rather than running out of fuel),
every returned entry has depth at most 2, and the result size — which may
exceed 20 — is bounded by 19 plus the relationship-record count of one node,
hence by 19 + 2·|edges|. -/
theorem find_related_entities_terminates_depth_bounded (g : Graph) (entity_name : String) :
    ∃ res, find_related_entities g entity_name 2 = some res ∧
      (∀ r ∈ res, r.depth ≤ 2) ∧
      res.length ≤ 19 + 2 * g.edges.length :=
  find_related_entities_spec g entity_name

/-- The graph of the spec's own keyword-retrieval scenario: a "Guitar" skill
node related to "User". -/
def gGuitar : Graph :=
  { nodes := [[("name", Value.str "Guitar"), ("type", Value.str "Skill")],
              [("name", Value.str "User"), ("type", Value.str "Person")]]
    edges := [{ src := "User", tgt := "Guitar", typ := "SKILLED_IN", props := [] }] }

/-- C5: the keyword-match relationship list is ALWAYS empty — every
relationship record produced by get_node_relationships lacks the "id" key,
and _deduplicate_list drops every item whose deduplication key is missing;
concretely, for the query "Tell me about Guitar" against a graph where the
matched entity "Guitar" has a relationship, the entity list is non-empty and
the relationship list is nonetheless empty. -/
theorem keyword_relationship_list_always_empty :
    (∀ (g : Graph) (query : String) (max_results : Nat),
      (_get_keyword_matches g query max_results).2 = []) ∧
    ((_get_keyword_matches gGuitar "Tell me about Guitar" 5).1).length = 1 ∧
    (get_node_relationships gGuitar "Guitar").length = 1 ∧
    (_get_keyword_matches gGuitar "Tell me about Guitar" 5).2 = [] :=
  ⟨keyword_matches_relationships_nil, by decide, by decide, by decide⟩

/-- C6 counterexample: keyword extraction on "Tell me about Guitar" yields
["tell", "about", "guitar"], not {"guitar"}: neither "tell" nor "about" is
in the stop-word set. -/
theorem extract_keywords_counterexample :
    _extract_keywords "Tell me about Guitar" = ["tell", "about", "guitar"] ∧
    "tell" ∉ stop_words ∧ "about" ∉ stop_words := by decide

/-- C6 (amended): extraction lowercases, splits on whitespace, drops tokens
that are stop-words or have length ≤ 2 (both checks before punctuation
stripping), strips the punctuation ".,!?;:" from both ends of the survivors,
and keeps at most the first 5 in original order; "tell" and "about" survive,
so "Tell me about Guitar" yields ["tell", "about", "guitar"]. -/
theorem extract_keywords_behaviour :
    _extract_keywords "Tell me about Guitar" = ["tell", "about", "guitar"] ∧
    (∀ query : String, (_extract_keywords query).length ≤ 5) ∧
    (∀ (query w : String), w ∈ _extract_keywords query →
      ∃ tok ∈ py_split_ws (py_lower query),
        tok ∉ stop_words ∧ tok.length > 2 ∧ w = py_strip_list isStripPunct tok) :=
  ⟨by decide, extract_keywords_length_le, extract_keywords_mem⟩

/-- C6 witness: the membership conjunct applied to the keyword "guitar"
extracted from "Tell me about Guitar". -/
theorem extract_keywords_behaviour_witness :
    ("guitar" ∈ _extract_keywords "Tell me about Guitar") ∧
    (∃ tok ∈ py_split_ws (py_lower "Tell me about Guitar"),
      tok ∉ stop_words ∧ tok.length > 2 ∧ "guitar" = py_strip_list isStripPunct tok) :=
  ⟨by decide, extract_keywords_behaviour.2.2 "Tell me about Guitar" "guitar" (by decide)⟩
